import Mathlib

/-!
Verification of the Pentad-Chat fan-out / multiplexing server (src/app.py).

The file embeds the stream-relevant parts of `app.py` as pure Lean
functions and proves the specification's claims about them:

* `generate` models the per-persona generator `generate(bot_name, ...)`:
  the upstream interaction is abstracted as the list of delivered chunks
  (each chunk optionally carrying a content string) together with an
  optional exception message; the body yields a Token event per truthy
  chunk content, then `done`, or an `error` event if an exception was
  raised anywhere in the `try` block.

* `round` / `runRounds` / `eventStream` model the merge loop
  `event_stream()` inside `chat()`: while bots remain active, one pass
  polls each active bot once (the Python loop iterates over a snapshot
  `active_bots[:]`), yields the produced chunk, and removes the bot when
  the chunk parses back as a done/error record or when the generator is
  exhausted (`StopIteration`).  After the loop a single `all_done`
  record is yielded.  The removal test reproduces the code faithfully:
  the chunk string is split on "data: " and re-parsed, so a record whose
  serialized payload contains the substring "data: " fails to parse and
  does not remove the bot on that pass (the bot is then removed on the
  next pass via `StopIteration`), and an error record with an empty
  message is falsy and also does not remove the bot on that pass.

* `asklurk` / `merged_content` model the `/asklurk` synthesis route, and
  `processFile` / `processFiles` model the attached-file loop in
  `chat()`.

* the traced model (`pollOneT`, `roundT`, `eventStreamT`) additionally
  records when each persona's generator body first runs — Python
  generators are lazy, so the `OpenAI` client inside `generate` is only
  created at the first `next()` on that generator.
-/

namespace PentadChat

/-- Raw events yielded by one persona's generator, as in `generate`:
incremental text tokens, a final done record, or a final error record
carrying the exception message. -/
inductive RawEvent where
  | token (text : String)
  | done
  | error (msg : String)

deriving instance DecidableEq for RawEvent

/-- Events of the combined stream produced by `event_stream`: the raw
events tagged with their bot identifier, plus the terminal
`all_done` record. -/
inductive StreamEvent where
  | token (bot text : String)
  | done (bot : String)
  | error (bot msg : String)
  | allDone

deriving instance DecidableEq for StreamEvent

/-- Tag a raw event with its bot identifier, as `generate` does when it
serializes each record with a `bot` field. -/
def tagEvent (bot : String) : RawEvent → StreamEvent
  | .token t => .token bot t
  | .done => .done bot
  | .error m => .error bot m

/-- Character-list prefix test (structurally recursive so that concrete
instances reduce inside the kernel). -/
def isPrefixOfCh : List Char → List Char → Bool
  | [], _ => true
  | _ :: _, [] => false
  | a :: as, b :: bs => a == b && isPrefixOfCh as bs

/-- Character-list substring test. -/
def hasSubCh (pat : List Char) : List Char → Bool
  | [] => isPrefixOfCh pat []
  | c :: cs => isPrefixOfCh pat (c :: cs) || hasSubCh pat cs

/-- Whether a string contains the marker `"data: "`.  The merge loop
re-parses each yielded chunk with `chunk.split('data: ')[1]`; the parse
succeeds exactly when the serialized JSON payload does not itself
contain the marker. -/
def hasDataMarker (s : String) : Bool := hasSubCh "data: ".data s.data

/-- Whether `json.loads(chunk.split('data: ')[1])` succeeds for the
chunk that `generate` produced for this event: the payload of a token
record contains the bot name and the text, a done record only the bot
name, an error record the bot name and the message.  JSON escaping can
neither create nor destroy an occurrence of `"data: "`, so the parse
fails exactly when one of those fields contains the marker. -/
def chunkParseOk (bot : String) : RawEvent → Bool
  | .token t => !hasDataMarker bot && !hasDataMarker t
  | .done => !hasDataMarker bot
  | .error m => !hasDataMarker bot && !hasDataMarker m

/-- Whether the merge loop removes the bot from `active_bots` right
after yielding this event: the re-parse must succeed and
`chunk_data.get('done') or chunk_data.get('error')` must be truthy
(`done` is `True`; an error message is truthy when non-empty). -/
def removesBot (bot : String) (e : RawEvent) : Bool :=
  chunkParseOk bot e &&
    (match e with
      | .done => true
      | .error m => !(m == "")
      | .token _ => false)

/-- State of the merge loop: the still-active bots in order, each with
the list of events its generator has yet to yield. -/
abbrev MuxState := List (String × List RawEvent)

/-- One `next()` call on a bot's generator, as performed by the merge
loop: an exhausted generator raises `StopIteration` and the bot is
removed (`none`); otherwise the head event is yielded and the bot is
removed exactly when `removesBot` holds. -/
def pollOne (bot : String) : List RawEvent → List StreamEvent × Option (List RawEvent)
  | [] => ([], none)
  | e :: es => ([tagEvent bot e], if removesBot bot e then none else some es)

/-- One pass of the merge loop over the snapshot `active_bots[:]`:
every bot active at the start of the pass is polled exactly once, in
order; the state keeps the surviving bots in their original order. -/
def round : MuxState → List StreamEvent × MuxState
  | [] => ([], [])
  | (bot, evts) :: rest =>
    let pr := pollOne bot evts
    let rr := round rest
    (pr.1 ++ rr.1,
      match pr.2 with
      | none => rr.2
      | some es => (bot, es) :: rr.2)

/-- Termination measure of the merge loop: total number of pending
events plus the number of active bots. -/
def muxMeasure : MuxState → Nat
  | [] => 0
  | (_, evts) :: rest => evts.length + 1 + muxMeasure rest

/-- Fuelled iteration of `round` until no bot is active.  `muxMeasure`
strictly decreases at each pass, so `muxMeasure s` is always enough
fuel. -/
def runRoundsFuel : Nat → MuxState → List StreamEvent
  | 0, _ => []
  | n + 1, s =>
    match s with
    | [] => []
    | _ :: _ => (round s).1 ++ runRoundsFuel n (round s).2

/-- The `while active_bots:` loop of `event_stream`. -/
def runRounds (s : MuxState) : List StreamEvent := runRoundsFuel (muxMeasure s) s

/-- The whole body of `event_stream`: the merge loop followed by the
single `all_done` record. -/
def eventStream (s : MuxState) : List StreamEvent :=
  runRounds s ++ [StreamEvent.allDone]

/-- The sequence of events yielded by `generate(bot_name, ...)`, given
the chunks the upstream stream delivered before ending (each with its
optional `delta.content`) and, when the `try` block raised at any
point, the exception message.  A chunk whose content is missing or
empty is skipped (Python truthiness of `chunk.choices[0].delta.content`);
a clean end of the stream yields a done record; an exception anywhere
is caught and yields a single error record. -/
def generate (chunks : List (Option String)) (outcome : Option String) : List RawEvent :=
  (chunks.filterMap fun c =>
    match c with
    | some t => if t = "" then none else some (RawEvent.token t)
    | none => none)
  ++ [match outcome with
      | none => RawEvent.done
      | some m => RawEvent.error m]

/-- Well-shaped generator output: no event follows a done/error event.
Every list `generate` can produce satisfies this. -/
def wfStream : List RawEvent → Bool
  | [] => true
  | RawEvent.token _ :: rest => wfStream rest
  | RawEvent.done :: rest => rest.isEmpty
  | RawEvent.error _ :: rest => rest.isEmpty

/-- The pending events of a bot in a merge-loop state (first entry with
that key; `[]` when the bot is not active). -/
def getStream (bot : String) : MuxState → List RawEvent
  | [] => []
  | (b, evts) :: rest => if b == bot then evts else getStream bot rest

/-- The keys of an association list are pairwise distinct. -/
def keysNodup {α : Type} : List (String × α) → Bool
  | [] => true
  | (b, _) :: rest => !(rest.any fun p => p.1 == b) && keysNodup rest

/-- Whether a combined-stream event belongs to the given bot
(`all_done` carries no bot). -/
def evBot (bot : String) : StreamEvent → Bool
  | .token b _ => b == bot
  | .done b => b == bot
  | .error b _ => b == bot
  | .allDone => false

/-- Token-event test. -/
def isTokenEv : StreamEvent → Bool
  | .token _ _ => true
  | _ => false

/-- Done-event test. -/
def isDoneEv : StreamEvent → Bool
  | .done _ => true
  | _ => false

/-- Error-event test. -/
def isErrorEv : StreamEvent → Bool
  | .error _ _ => true
  | _ => false

/-- All-done test. -/
def isAllDoneEv : StreamEvent → Bool
  | .allDone => true
  | _ => false

/-- Terminal event (done or error) of the given bot. -/
def isTermOf (bot : String) : StreamEvent → Bool
  | .done b => b == bot
  | .error b _ => b == bot
  | _ => false

/-- Token event of the given bot. -/
def isTokenOf (bot : String) : StreamEvent → Bool
  | .token b _ => b == bot
  | _ => false

/-- Error event of the given bot. -/
def isErrOf (bot : String) : StreamEvent → Bool
  | .error b _ => b == bot
  | _ => false

/-- Terminal raw event. -/
def isTermRaw : RawEvent → Bool
  | .done => true
  | .error _ => true
  | .token _ => false

/-- Number of events that a bot entry contributes to the combined
stream, for a given event predicate. -/
def emitCount (p : StreamEvent → Bool) (q : String × List RawEvent) : Nat :=
  (q.2.map (tagEvent q.1)).countP p

/-- The event source of a persona that emits the given token texts and
then completes normally (its generator yields each token and then the
done record). -/
def srcDone (p : String × List String) : String × List RawEvent :=
  (p.1, p.2.map RawEvent.token ++ [RawEvent.done])

/-- Merge-loop start state for a set of personas that each emit a fixed
token list and then complete. -/
def srcState (ps : List (String × List String)) : MuxState := ps.map srcDone

/-- The event source of one persona's generator inside `event_stream`'s
`generators` dictionary, given the upstream chunks and outcome its
`generate` call sees. -/
def genSource (g : String × List (Option String) × Option String) : String × List RawEvent :=
  (g.1, generate g.2.1 g.2.2)

/-- Merge-loop start state built from the per-persona `generate`
streams, as the dictionary comprehension in `event_stream` does. -/
def genState (gens : List (String × List (Option String) × Option String)) : MuxState :=
  gens.map genSource

/-- Merge-loop start state in which persona b0 errors (its generator
yields its tokens and then an error record) while every persona of ps1
and ps2 completes normally. -/
def errState (ps1 : List (String × List String)) (b0 : String) (ts0 : List String)
    (msg : String) (ps2 : List (String × List String)) : MuxState :=
  srcState ps1 ++ (b0, ts0.map RawEvent.token ++ [RawEvent.error msg]) :: srcState ps2

/-- Response of the /asklurk route, together with how many upstream
synthesis calls were performed and which user message was sent
upstream. -/
structure AsklurkResult where
  best : String
  error : Option String
  status : Nat
  upstreamCalls : Nat
  sentUserMessage : Option String

deriving instance DecidableEq for AsklurkResult

/-- The MODELS table of app.py: persona id and display name. -/
def MODELS : List (String × String) :=
  [("logic", "Logic AI"), ("creative", "Creative AI"), ("technical", "Technical AI"),
   ("philosophical", "Philosophical AI"), ("humorous", "Humorous AI")]

/-- Python membership test `key in MODELS`. -/
def isModelKey (k : String) : Bool := MODELS.any fun p => p.1 == k

/-- Python lookup `MODELS[key]['name']` (defaulting for absent keys,
which asklurk never reaches because of its membership filter). -/
def modelName (k : String) : String :=
  ((MODELS.find? fun p => p.1 == k).map Prod.snd).getD ""

/-- The merged_content string built by asklurk: the original-question
header followed by one section per answers entry whose key is a
configured persona id; entries with unknown keys are dropped by the
`if key in MODELS` filter. -/
def merged_content (prompt : String) (answers : List (String × String)) : String :=
  "Original question: " ++ prompt ++ "\n\n"
    ++ String.join (answers.filterMap fun kr =>
        if isModelKey kr.1 then
          some ("## " ++ modelName kr.1 ++ ":\n" ++ kr.2 ++ "\n\n")
        else none)

/-- The /asklurk route body, with the upstream completion modeled as an
oracle from the sent user message to the returned best answer.  An
empty answers map (`if not answers:`) returns the 400 InvalidInput
response without calling upstream; otherwise exactly one upstream call
is made with the merged content embedded in the user message. -/
def asklurk (prompt : String) (answers : List (String × String))
    (upstream : String → String) : AsklurkResult :=
  if answers.isEmpty then
    { best := "", error := some "No responses to analyze", status := 400,
      upstreamCalls := 0, sentUserMessage := none }
  else
    let userMsg := "Analyze these AI responses to '" ++ prompt ++ "':\n"
      ++ merged_content prompt answers ++ "\nProvide the best synthesized answer."
    { best := upstream userMsg, error := none, status := 200,
      upstreamCalls := 1, sentUserMessage := some userMsg }

/-- Python's `sep.join(parts)`. -/
def joinSep (sep : String) : List String → String
  | [] => ""
  | [a] => a
  | a :: rest => a ++ sep ++ joinSep sep rest

/-- The full user prompt built inside `generate`: the prompt unchanged
when no file content was extracted (`if file_contents:` is falsy),
otherwise the prompt followed by the attached-files header and the
blocks joined by blank lines. -/
def full_user_prompt (user : String) (file_contents : List String) : String :=
  if file_contents.isEmpty then user
  else user ++ "\n\nAttached files content:\n" ++ joinSep "\n\n" file_contents

/-- The block `chat()` appends for an attached PDF file. -/
def pdfBlock (file_path text : String) : String :=
  "PDF Content from '" ++ file_path ++ "':\n" ++ text ++ "\n"

/-- The block `chat()` appends for an attached plain-text file. -/
def txtBlock (file_path text : String) : String :=
  "Text Content from '" ++ file_path ++ "':\n" ++ text ++ "\n"

/-- The block built for an attached document given its path, extracted
text and whether it is a PDF. -/
def docBlock : String × String × Bool → String
  | (path, text, isPdf) => if isPdf then pdfBlock path text else txtBlock path text

/-- The label that opens a document block and names its originating
file. -/
def docLabel : String × String × Bool → String
  | (path, _, isPdf) =>
    (if isPdf then "PDF Content from '" else "Text Content from '") ++ path ++ "':\n"

/-- Character-list suffix test. -/
def isSuffixCh (p s : List Char) : Bool := isPrefixOfCh p.reverse s.reverse

/-- Python `s.endswith(suf)`. -/
def endsWithStr (s suf : String) : Bool := isSuffixCh suf.data s.data

/-- Python `s.lower()` (ASCII case folding, which is all the compared
extensions need). -/
def strLower (s : String) : String := ⟨s.data.map Char.toLower⟩

/-- Fuelled left-to-right replacement of every occurrence, as Python
`s.replace(pat, rep)` does.  The fuel `s.length` is always sufficient
because each step consumes at least one character; an empty pattern is
returned unchanged, a case the code never exercises since its pattern
is the fixed literal `'/static/uploads/'`. -/
def replaceChAux (pat rep : List Char) : Nat → List Char → List Char
  | 0, s => s
  | _ + 1, [] => []
  | n + 1, c :: cs =>
    if isPrefixOfCh pat (c :: cs) && !pat.isEmpty then
      rep ++ replaceChAux pat rep n (List.drop (pat.length - 1) cs)
    else c :: replaceChAux pat rep n cs

/-- Python `s.replace(pat, rep)`. -/
def strReplace (s pat rep : String) : String :=
  ⟨replaceChAux pat.data rep.data s.data.length s.data⟩

/-- The uploads directory constant of app.py. -/
def UPLOAD_FOLDER : String := "static/uploads"

/-- Python `os.path.join(a, b)`: an absolute second component discards
the first; otherwise a slash separates them unless the first already
ends with one. -/
def os_path_join (a b : String) : String :=
  if isPrefixOfCh ['/'] b.data then b
  else if isSuffixCh ['/'] a.data then a ++ b
  else a ++ "/" ++ b

/-- The file path the chat route derives from an attached file URL:
`file_url.replace('/static/uploads/', '')`. -/
def filePathOf (file_url : String) : String :=
  strReplace file_url "/static/uploads/" ""

/-- The filesystem path the chat route opens:
`os.path.join(UPLOAD_FOLDER, file_path)`. -/
def fullPathOf (file_url : String) : String :=
  os_path_join UPLOAD_FOLDER (filePathOf file_url)

/-- Processing of one attached file URL in `chat()`.  `fs` models the
filesystem (`os.path.exists` plus `open(...).read()`, `none` when the
file does not exist), `pdfText` models `extract_text_from_pdf`
(returning `none` when extraction raised, otherwise the stripped
text), and `utf8` models `file_content.decode('utf-8')` (`none` when
decoding raises — the enclosing `except` then swallows the error).
The result is the text block this URL contributes to `file_contents`,
if any: a PDF block for a non-empty extraction of a `.pdf` name, a
text block for a decodable `.txt` name, nothing otherwise. -/
def processFile (fs : String → Option (List Nat)) (pdfText utf8 : List Nat → Option String)
    (file_url : String) : Option String :=
  match fs (fullPathOf file_url) with
  | none => none
  | some content =>
    if endsWithStr (strLower (filePathOf file_url)) ".pdf" then
      match pdfText content with
      | none => none
      | some t => if t = "" then none else some (pdfBlock (filePathOf file_url) t)
    else if endsWithStr (strLower (filePathOf file_url)) ".txt" then
      match utf8 content with
      | none => none
      | some t => some (txtBlock (filePathOf file_url) t)
    else none

/-- The whole attached-file loop of `chat()`: the `file_contents` list
gathered from the posted URLs, in order. -/
def processFiles (fs : String → Option (List Nat)) (pdfText utf8 : List Nat → Option String)
    (urls : List String) : List String :=
  urls.filterMap (processFile fs pdfText utf8)

/-- Items of the execution trace of `event_stream` under Python's lazy
generator semantics: `start b` marks the first execution of persona
b's generator body — the point where its `OpenAI` client is created
and the upstream streaming request is opened — and `yielded e` marks
an event being yielded to the consumer (the point where the merge loop
awaited and obtained it). -/
inductive TraceItem where
  | start (bot : String)
  | yielded (e : StreamEvent)

deriving instance DecidableEq for TraceItem

/-- Traced generator state: whether the body has started executing,
and the events it has yet to yield. -/
abbrev GenT := Bool × List RawEvent

/-- Traced merge-loop state. -/
abbrev MuxStateT := List (String × GenT)

/-- One `next()` call under lazy semantics: calling `generate(...)` in
the dictionary comprehension runs none of its body, so the first
`next()` on a generator first executes the body prefix — creating the
`OpenAI` client and opening the upstream request (`start`) — before
reaching the first yield; afterwards `next()` behaves as `pollOne`. -/
def pollOneT (bot : String) (g : GenT) : List TraceItem × Option GenT :=
  let pre : List TraceItem := if g.1 then [] else [TraceItem.start bot]
  match g.2 with
  | [] => (pre, none)
  | e :: es =>
    (pre ++ [TraceItem.yielded (tagEvent bot e)],
      if removesBot bot e then none else some (true, es))

/-- One traced pass of the merge loop. -/
def roundT : MuxStateT → List TraceItem × MuxStateT
  | [] => ([], [])
  | (bot, g) :: rest =>
    let pr := pollOneT bot g
    let rr := roundT rest
    (pr.1 ++ rr.1,
      match pr.2 with
      | none => rr.2
      | some g2 => (bot, g2) :: rr.2)

/-- Termination measure of the traced loop. -/
def muxMeasureT : MuxStateT → Nat
  | [] => 0
  | (_, g) :: rest => g.2.length + 1 + muxMeasureT rest

/-- Fuelled iteration of `roundT`. -/
def runRoundsFuelT : Nat → MuxStateT → List TraceItem
  | 0, _ => []
  | n + 1, s =>
    match s with
    | [] => []
    | _ :: _ => (roundT s).1 ++ runRoundsFuelT n (roundT s).2

/-- The traced `event_stream`: the dictionary comprehension creates
every generator object unstarted (a Python generator body does not run
at creation time), then the merge loop runs to completion, then the
single all_done record is yielded. -/
def eventStreamT (ps : List (String × List RawEvent)) : List TraceItem :=
  runRoundsFuelT (muxMeasureT (ps.map fun p => (p.1, (false, p.2))))
      (ps.map fun p => (p.1, (false, p.2)))
    ++ [TraceItem.yielded StreamEvent.allDone]

/-- Client-start trace item. -/
def isStartItem : TraceItem → Bool
  | .start _ => true
  | .yielded _ => false

/-- Yield trace item. -/
def isYieldItem : TraceItem → Bool
  | .start _ => false
  | .yielded _ => true

/-- The scheduling property C4 asserts: every upstream client start
precedes the first yielded event (all clients are started before the
first event is awaited). -/
def allStartsBeforeFirstYield (tr : List TraceItem) : Bool :=
  (tr.dropWhile fun x => !isYieldItem x).all fun x => !isStartItem x

@[simp] theorem evBot_tagEvent (bot b : String) (e : RawEvent) :
    evBot bot (tagEvent b e) = (b == bot) := by
  cases e <;> rfl

theorem removesBot_isTermRaw {bot : String} {e : RawEvent}
    (h : removesBot bot e = true) : isTermRaw e = true := by
  cases e <;> simp_all [removesBot, isTermRaw]

theorem wfStream_cons {e : RawEvent} {es : List RawEvent}
    (h : wfStream (e :: es) = true) : wfStream es = true := by
  cases e <;> simp_all [wfStream, List.isEmpty_iff]

theorem wfStream_term_tail {e : RawEvent} {es : List RawEvent}
    (hw : wfStream (e :: es) = true) (ht : isTermRaw e = true) : es = [] := by
  cases e <;> simp_all [wfStream, isTermRaw, List.isEmpty_iff]

theorem notKey_getStream {bot : String} :
    ∀ s : MuxState, s.any (fun p => p.1 == bot) = false → getStream bot s = [] := by
  intro s
  induction s with
  | nil => intro _; rfl
  | cons p rest ih =>
    intro h
    obtain ⟨b, evts⟩ := p
    simp only [List.any_cons, Bool.or_eq_false_iff] at h
    simp [getStream, h.1, ih h.2]

theorem notKey_round_filter {bot : String} :
    ∀ s : MuxState, s.any (fun p => p.1 == bot) = false →
      (round s).1.filter (evBot bot) = [] := by
  intro s
  induction s with
  | nil => intro _; rfl
  | cons p rest ih =>
    intro h
    obtain ⟨b, evts⟩ := p
    simp only [List.any_cons, Bool.or_eq_false_iff] at h
    cases evts with
    | nil => simpa [round, pollOne] using ih h.2
    | cons e es => simp [round, pollOne, List.filter_append, h.1, ih h.2]

theorem notKey_round_state {bot : String} :
    ∀ s : MuxState, s.any (fun p => p.1 == bot) = false →
      (round s).2.any (fun p => p.1 == bot) = false := by
  intro s
  induction s with
  | nil => intro _; rfl
  | cons p rest ih =>
    intro h
    obtain ⟨b, evts⟩ := p
    simp only [List.any_cons, Bool.or_eq_false_iff] at h
    cases evts with
    | nil => simpa [round, pollOne] using ih h.2
    | cons e es =>
      cases hrem : removesBot b e with
      | true => simpa [round, pollOne, hrem] using ih h.2
      | false => simp [round, pollOne, hrem, h.1, ih h.2]

theorem round_filter (bot : String) :
    ∀ s : MuxState, keysNodup s = true →
      (round s).1.filter (evBot bot) = ((getStream bot s).take 1).map (tagEvent bot) := by
  intro s
  induction s with
  | nil => intro _; rfl
  | cons p rest ih =>
    intro h
    obtain ⟨b, evts⟩ := p
    simp only [keysNodup, Bool.and_eq_true, Bool.not_eq_true'] at h
    cases hbb : (b == bot) with
    | true =>
      have hb : b = bot := by simpa using hbb
      subst hb
      cases evts with
      | nil => simpa [round, pollOne, getStream] using notKey_round_filter rest h.1
      | cons e es =>
        simp [round, pollOne, List.filter_append, getStream,
          notKey_round_filter rest h.1]
    | false =>
      cases evts with
      | nil => simpa [round, pollOne, getStream, hbb] using ih h.2
      | cons e es =>
        simpa [round, pollOne, List.filter_append, getStream, hbb] using ih h.2

theorem round_state_getStream (bot : String) :
    ∀ s : MuxState, keysNodup s = true →
      getStream bot (round s).2 =
        (match getStream bot s with
         | [] => []
         | e :: es => if removesBot bot e then [] else es) := by
  intro s
  induction s with
  | nil => intro _; rfl
  | cons p rest ih =>
    intro h
    obtain ⟨b, evts⟩ := p
    simp only [keysNodup, Bool.and_eq_true, Bool.not_eq_true'] at h
    cases hbb : (b == bot) with
    | true =>
      have hb : b = bot := by simpa using hbb
      subst hb
      cases evts with
      | nil =>
        simpa [round, pollOne, getStream] using
          notKey_getStream (round rest).2 (notKey_round_state rest h.1)
      | cons e es =>
        cases hrem : removesBot b e with
        | true =>
          simpa [round, pollOne, hrem, getStream] using
            notKey_getStream (round rest).2 (notKey_round_state rest h.1)
        | false => simp [round, pollOne, hrem, getStream]
    | false =>
      cases evts with
      | nil => simpa [round, pollOne, getStream, hbb] using ih h.2
      | cons e es =>
        cases hrem : removesBot b e with
        | true => simpa [round, pollOne, hrem, getStream, hbb] using ih h.2
        | false => simpa [round, pollOne, hrem, getStream, hbb] using ih h.2

theorem keysNodup_round :
    ∀ s : MuxState, keysNodup s = true → keysNodup (round s).2 = true := by
  intro s
  induction s with
  | nil => intro _; rfl
  | cons p rest ih =>
    intro h
    obtain ⟨b, evts⟩ := p
    simp only [keysNodup, Bool.and_eq_true, Bool.not_eq_true'] at h
    cases evts with
    | nil => simpa [round, pollOne] using ih h.2
    | cons e es =>
      cases hrem : removesBot b e with
      | true => simpa [round, pollOne, hrem] using ih h.2
      | false =>
        simp [round, pollOne, hrem, keysNodup, ih h.2,
          notKey_round_state rest h.1]

theorem wf_round :
    ∀ s : MuxState, (∀ p ∈ s, wfStream p.2 = true) →
      ∀ p ∈ (round s).2, wfStream p.2 = true := by
  intro s
  induction s with
  | nil => intro _ p hp; simp [round] at hp
  | cons q rest ih =>
    intro h p hp
    obtain ⟨b, evts⟩ := q
    have hrest : ∀ p ∈ rest, wfStream p.2 = true := fun p hp => h p (List.mem_cons_of_mem _ hp)
    have hhead : wfStream evts = true := h (b, evts) (List.mem_cons_self _ _)
    cases evts with
    | nil =>
      simp only [round, pollOne] at hp
      exact ih hrest p hp
    | cons e es =>
      cases hrem : removesBot b e with
      | true =>
        simp only [round, pollOne, hrem, if_true] at hp
        exact ih hrest p hp
      | false =>
        simp only [round, pollOne, hrem, if_false, Bool.false_eq_true] at hp
        rcases List.mem_cons.mp hp with hp | hp
        · subst hp
          exact wfStream_cons hhead
        · exact ih hrest p hp

theorem muxMeasure_round_le :
    ∀ s : MuxState, muxMeasure (round s).2 ≤ muxMeasure s := by
  intro s
  induction s with
  | nil => simp [round, muxMeasure]
  | cons p rest ih =>
    obtain ⟨b, evts⟩ := p
    cases evts with
    | nil => simp only [round, pollOne, muxMeasure]; omega
    | cons e es =>
      cases hrem : removesBot b e with
      | true => simp only [round, pollOne, hrem, if_true, muxMeasure]; omega
      | false =>
        simp only [round, pollOne, hrem, if_false, Bool.false_eq_true, muxMeasure,
          List.length_cons]
        omega

theorem muxMeasure_round_lt (p : String × List RawEvent) (rest : MuxState) :
    muxMeasure (round (p :: rest)).2 < muxMeasure (p :: rest) := by
  obtain ⟨b, evts⟩ := p
  have hr := muxMeasure_round_le rest
  cases evts with
  | nil => simp only [round, pollOne, muxMeasure]; omega
  | cons e es =>
    cases hrem : removesBot b e with
    | true =>
      simp only [round, pollOne, hrem, if_true, muxMeasure, List.length_cons]
      omega
    | false =>
      simp only [round, pollOne, hrem, if_false, Bool.false_eq_true, muxMeasure,
        List.length_cons]
      omega

theorem muxMeasure_eq_zero :
    ∀ s : MuxState, muxMeasure s = 0 → s = [] := by
  intro s h
  cases s with
  | nil => rfl
  | cons p rest => obtain ⟨b, evts⟩ := p; simp [muxMeasure] at h

theorem wfStream_getStream :
    ∀ s : MuxState, (∀ p ∈ s, wfStream p.2 = true) →
      ∀ bot, wfStream (getStream bot s) = true := by
  intro s
  induction s with
  | nil => intro _ bot; rfl
  | cons p rest ih =>
    intro h bot
    obtain ⟨b, evts⟩ := p
    cases hbb : (b == bot) with
    | true =>
      simpa [getStream, hbb] using h (b, evts) (List.mem_cons_self _ _)
    | false =>
      simpa [getStream, hbb] using
        ih (fun p hp => h p (List.mem_cons_of_mem _ hp)) bot

theorem runRoundsFuel_filter (bot : String) :
    ∀ n : Nat, ∀ s : MuxState, muxMeasure s ≤ n → keysNodup s = true →
      (∀ p ∈ s, wfStream p.2 = true) →
      (runRoundsFuel n s).filter (evBot bot) = (getStream bot s).map (tagEvent bot) := by
  intro n
  induction n with
  | zero =>
    intro s hm _ _
    have hs : s = [] := muxMeasure_eq_zero s (Nat.le_zero.mp hm)
    subst hs; rfl
  | succ n ih =>
    intro s hm hnd hwf
    cases s with
    | nil => rfl
    | cons p rest =>
      have hlt := muxMeasure_round_lt p rest
      have hm' : muxMeasure (round (p :: rest)).2 ≤ n := by omega
      have hstep :
          runRoundsFuel (n + 1) (p :: rest)
            = (round (p :: rest)).1 ++ runRoundsFuel n (round (p :: rest)).2 := rfl
      rw [hstep, List.filter_append,
        round_filter bot (p :: rest) hnd,
        ih (round (p :: rest)).2 hm' (keysNodup_round _ hnd) (wf_round _ hwf),
        round_state_getStream bot (p :: rest) hnd]
      cases hg : getStream bot (p :: rest) with
      | nil => simp
      | cons e es =>
        cases hrem : removesBot bot e with
        | true =>
          have hwfg : wfStream (getStream bot (p :: rest)) = true :=
            wfStream_getStream (p :: rest) hwf bot
          rw [hg] at hwfg
          have hes : es = [] := wfStream_term_tail hwfg (removesBot_isTermRaw hrem)
          subst hes
          simp [hrem]
        | false => simp [hrem]

theorem round_countP (p : StreamEvent → Bool) :
    ∀ s : MuxState, (∀ q ∈ s, wfStream q.2 = true) →
      (round s).1.countP p + ((round s).2.map (emitCount p)).sum
        = (s.map (emitCount p)).sum := by
  intro s
  induction s with
  | nil => intro _; rfl
  | cons q rest ih =>
    intro h
    obtain ⟨b, evts⟩ := q
    have hrest : ∀ q ∈ rest, wfStream q.2 = true := fun q hq => h q (List.mem_cons_of_mem _ hq)
    have hhead : wfStream evts = true := h (b, evts) (List.mem_cons_self _ _)
    have ihr := ih hrest
    cases evts with
    | nil =>
      simp only [round, pollOne, List.nil_append, List.map_cons, List.sum_cons]
      simp only [emitCount, List.map_nil, List.countP_nil]
      omega
    | cons e es =>
      cases hrem : removesBot b e with
      | true =>
        have hes : es = [] := wfStream_term_tail hhead (removesBot_isTermRaw hrem)
        subst hes
        simp only [round, pollOne, hrem, if_true, List.countP_append,
          List.map_cons, List.sum_cons] at ihr ⊢
        simp only [emitCount, List.map_cons, List.map_nil, List.countP_cons,
          List.countP_nil]
        omega
      | false =>
        simp only [round, pollOne, hrem, if_false, Bool.false_eq_true,
          List.countP_append, List.map_cons, List.sum_cons] at ihr ⊢
        simp only [emitCount, List.map_cons, List.countP_cons, List.countP_nil]
        omega

theorem runRoundsFuel_countP (p : StreamEvent → Bool) :
    ∀ n : Nat, ∀ s : MuxState, muxMeasure s ≤ n →
      (∀ q ∈ s, wfStream q.2 = true) →
      (runRoundsFuel n s).countP p = (s.map (emitCount p)).sum := by
  intro n
  induction n with
  | zero =>
    intro s hm _
    have hs : s = [] := muxMeasure_eq_zero s (Nat.le_zero.mp hm)
    subst hs; rfl
  | succ n ih =>
    intro s hm hwf
    cases s with
    | nil => rfl
    | cons q rest =>
      have hlt := muxMeasure_round_lt q rest
      have hm' : muxMeasure (round (q :: rest)).2 ≤ n := by omega
      have hstep :
          runRoundsFuel (n + 1) (q :: rest)
            = (round (q :: rest)).1 ++ runRoundsFuel n (round (q :: rest)).2 := rfl
      rw [hstep, List.countP_append,
        ih (round (q :: rest)).2 hm' (wf_round _ hwf)]
      exact round_countP p (q :: rest) hwf

theorem runRounds_filter (bot : String) (s : MuxState)
    (hnd : keysNodup s = true) (hwf : ∀ p ∈ s, wfStream p.2 = true) :
    (runRounds s).filter (evBot bot) = (getStream bot s).map (tagEvent bot) :=
  runRoundsFuel_filter bot (muxMeasure s) s le_rfl hnd hwf

theorem runRounds_countP (p : StreamEvent → Bool) (s : MuxState)
    (hwf : ∀ q ∈ s, wfStream q.2 = true) :
    (runRounds s).countP p = (s.map (emitCount p)).sum :=
  runRoundsFuel_countP p (muxMeasure s) s le_rfl hwf

theorem beq_symm_false {a b : String} (h : (a == b) = false) : (b == a) = false := by
  simp only [beq_eq_false_iff_ne] at h ⊢
  exact fun hba => h hba.symm

theorem getStream_of_mem :
    ∀ s : MuxState, keysNodup s = true → ∀ p ∈ s, getStream p.1 s = p.2 := by
  intro s
  induction s with
  | nil => intro _ p hp; simp at hp
  | cons q rest ih =>
    intro h p hp
    obtain ⟨b, evts⟩ := q
    simp only [keysNodup, Bool.and_eq_true, Bool.not_eq_true'] at h
    rcases List.mem_cons.mp hp with hp | hp
    · subst hp
      simp [getStream]
    · have hne : (p.1 == b) = false := by
        have := List.any_eq_false.mp h.1
        simpa using this p hp
      rw [getStream, if_neg]
      · exact ih h.2 p hp
      · simp [beq_symm_false hne]

theorem sum_map_const_nat {α : Type} (l : List α) (g : α → Nat) (k : Nat)
    (h : ∀ a ∈ l, g a = k) : (l.map g).sum = l.length * k := by
  induction l with
  | nil => simp
  | cons a t ih =>
    have ha := h a (List.mem_cons_self _ _)
    have ht := ih fun a ha => h a (List.mem_cons_of_mem _ ha)
    simp [ha, ht, Nat.succ_mul]
    omega

theorem eq_append_last {α : Type} (p : α → Bool) :
    ∀ (xs A : List α) (e t : α) (ys : List α),
      xs ++ e :: ys = A ++ [t] → (∀ a ∈ A, p a = false) → p e = true →
      xs = A ∧ e = t ∧ ys = [] := by
  intro xs
  induction xs with
  | nil =>
    intro A e t ys heq hA he
    cases A with
    | nil =>
      simp only [List.nil_append] at heq
      have h1 : e = t := by
        have := congrArg (fun l => List.head? l) heq
        simpa using this
      have h2 : ys = [] := by
        have := congrArg (fun l => List.tail l) heq
        simpa using this
      exact ⟨rfl, h1, h2⟩
    | cons a A' =>
      exfalso
      have h1 : e = a := by
        have := congrArg (fun l => List.head? l) heq
        simpa using this
      rw [h1] at he
      rw [hA a (List.mem_cons_self _ _)] at he
      exact Bool.false_ne_true he
  | cons x xs ih =>
    intro A e t ys heq hA he
    cases A with
    | nil =>
      exfalso
      simp only [List.cons_append, List.nil_append] at heq
      have h2 : xs ++ e :: ys = [] := by
        have := congrArg (fun l => List.tail l) heq
        simpa using this
      simpa using congrArg List.length h2
    | cons a A' =>
      simp only [List.cons_append, List.cons.injEq] at heq
      obtain ⟨hxa, heq'⟩ := heq
      have hA' : ∀ a ∈ A', p a = false := fun a ha => hA a (List.mem_cons_of_mem _ ha)
      obtain ⟨h1, h2, h3⟩ := ih A' e t ys heq' hA' he
      exact ⟨by rw [hxa, h1], h2, h3⟩

theorem wfStream_tokens_term (ts : List String) (t : RawEvent)
    (ht : isTermRaw t = true) :
    wfStream (ts.map RawEvent.token ++ [t]) = true := by
  induction ts with
  | nil => cases t <;> simp_all [wfStream, isTermRaw]
  | cons a as ih => simpa [wfStream] using ih

@[simp] theorem emitCount_mk (f : StreamEvent → Bool) (b : String)
    (evts : List RawEvent) :
    emitCount f (b, evts) = evts.countP (fun e => f (tagEvent b e)) := by
  simp [emitCount, List.countP_map]
  rfl

theorem isTermOf_evBot {bot : String} {x : StreamEvent}
    (h : isTermOf bot x = true) : evBot bot x = true := by
  cases x <;> simp_all [isTermOf, evBot]

theorem isTokenOf_evBot {bot : String} {x : StreamEvent}
    (h : isTokenOf bot x = true) : evBot bot x = true := by
  cases x <;> simp_all [isTokenOf, evBot]

/-- C1: for every fixed set of N personas whose sources each emit k
tokens and then complete, the multiplexed output contains exactly N per
k Token events, exactly N Done events, exactly one AllDone which is the
final element, and each persona's Token events appear in exactly the
order its source produced them (its filtered subsequence is its token
list followed by its done record). -/
theorem C1_multiplex_counts_and_order
    (ps : List (String × List String)) (k : Nat)
    (hnd : keysNodup (srcState ps) = true)
    (hk : ∀ p ∈ ps, p.2.length = k) :
    (eventStream (srcState ps)).countP isTokenEv = ps.length * k ∧
    (eventStream (srcState ps)).countP isDoneEv = ps.length ∧
    (eventStream (srcState ps)).countP isAllDoneEv = 1 ∧
    (eventStream (srcState ps)).getLast? = some StreamEvent.allDone ∧
    ∀ p ∈ ps, (eventStream (srcState ps)).filter (evBot p.1)
        = p.2.map (fun t => StreamEvent.token p.1 t) ++ [StreamEvent.done p.1] := by
  have hwf : ∀ q ∈ srcState ps, wfStream q.2 = true := by
    intro q hq
    obtain ⟨p, hp, rfl⟩ := List.mem_map.mp hq
    exact wfStream_tokens_term p.2 RawEvent.done rfl
  have hcount := fun f => runRounds_countP f (srcState ps) hwf
  have hmapTok : ∀ p ∈ ps, emitCount isTokenEv (srcDone p) = k := by
    intro p hp
    rw [← hk p hp]
    simp [srcDone, List.countP_append, List.countP_map, Function.comp, tagEvent,
      isTokenEv, List.countP_true, List.countP_eq_zero]
  have hmapDone : ∀ p ∈ ps, emitCount isDoneEv (srcDone p) = 1 := by
    intro p _
    simp [srcDone, List.countP_append, List.countP_map, Function.comp, tagEvent,
      isDoneEv, List.countP_eq_zero]
  have hmapAll : ∀ p ∈ ps, emitCount isAllDoneEv (srcDone p) = 0 := by
    intro p _
    simp [srcDone, List.countP_append, List.countP_map, Function.comp, tagEvent,
      isAllDoneEv, List.countP_eq_zero]
  refine ⟨?_, ?_, ?_, ?_, ?_⟩
  · rw [eventStream, List.countP_append, hcount isTokenEv, srcState, List.map_map]
    have : ((ps.map (emitCount isTokenEv ∘ srcDone)).sum) = ps.length * k :=
      sum_map_const_nat ps _ k (fun p hp => hmapTok p hp)
    simp only [this]
    simp [isTokenEv]
  · rw [eventStream, List.countP_append, hcount isDoneEv, srcState, List.map_map]
    have : ((ps.map (emitCount isDoneEv ∘ srcDone)).sum) = ps.length * 1 :=
      sum_map_const_nat ps _ 1 (fun p hp => hmapDone p hp)
    simp only [this]
    simp [isDoneEv]
  · rw [eventStream, List.countP_append, hcount isAllDoneEv, srcState, List.map_map]
    have : ((ps.map (emitCount isAllDoneEv ∘ srcDone)).sum) = ps.length * 0 :=
      sum_map_const_nat ps _ 0 (fun p hp => hmapAll p hp)
    simp only [this]
    simp [isAllDoneEv]
  · exact List.getLast?_concat _
  · intro p hp
    have hmem : srcDone p ∈ srcState ps := List.mem_map_of_mem srcDone hp
    have hget : getStream p.1 (srcState ps) = p.2.map RawEvent.token ++ [RawEvent.done] := by
      have := getStream_of_mem (srcState ps) hnd (srcDone p) hmem
      simpa [srcDone] using this
    rw [eventStream, List.filter_append, runRounds_filter p.1 (srcState ps) hnd hwf, hget]
    simp [evBot, tagEvent]

/-- Witness for C1 at a concrete two-persona, two-token instance. -/
theorem C1_witness :
    keysNodup (srcState [("a", ["x", "y"]), ("b", ["u", "v"])]) = true ∧
    ((eventStream (srcState [("a", ["x", "y"]), ("b", ["u", "v"])])).countP isTokenEv
        = 2 * 2 ∧
     (eventStream (srcState [("a", ["x", "y"]), ("b", ["u", "v"])])).countP isDoneEv = 2 ∧
     (eventStream (srcState [("a", ["x", "y"]), ("b", ["u", "v"])])).countP isAllDoneEv = 1 ∧
     (eventStream (srcState [("a", ["x", "y"]), ("b", ["u", "v"])])).getLast?
        = some StreamEvent.allDone ∧
     ∀ p ∈ [("a", ["x", "y"]), ("b", ["u", "v"])],
       (eventStream (srcState [("a", ["x", "y"]), ("b", ["u", "v"])])).filter (evBot p.1)
         = p.2.map (fun t => StreamEvent.token p.1 t) ++ [StreamEvent.done p.1]) :=
  ⟨by decide,
    C1_multiplex_counts_and_order [("a", ["x", "y"]), ("b", ["u", "v"])] 2
      (by decide) (by decide)⟩

theorem wfStream_append_term (t : RawEvent) (ht : isTermRaw t = true) :
    ∀ l : List RawEvent, (∀ e ∈ l, isTermRaw e = false) → wfStream (l ++ [t]) = true := by
  intro l
  induction l with
  | nil => intro _; cases t <;> simp_all [wfStream, isTermRaw]
  | cons e es ih =>
    intro h
    have he := h e (List.mem_cons_self _ _)
    cases e with
    | token _ =>
      simpa [wfStream] using ih fun x hx => h x (List.mem_cons_of_mem _ hx)
    | done => simp [isTermRaw] at he
    | error m => simp [isTermRaw] at he

theorem generate_tokens_shape {chunks : List (Option String)} :
    ∀ x ∈ chunks.filterMap (fun c =>
        match c with
        | some t => if t = "" then none else some (RawEvent.token t)
        | none => none),
      ∃ t, x = RawEvent.token t := by
  intro x hx
  obtain ⟨c, _, hcx⟩ := List.mem_filterMap.mp hx
  cases c with
  | none => simp at hcx
  | some t =>
    by_cases ht : t = ""
    · simp [ht] at hcx
    · simp only [ht, if_false, Option.some.injEq] at hcx
      exact ⟨t, hcx.symm⟩

theorem wfStream_generate (chunks : List (Option String)) (outcome : Option String) :
    wfStream (generate chunks outcome) = true := by
  have ht : isTermRaw (match outcome with
      | none => RawEvent.done
      | some m => RawEvent.error m) = true := by
    cases outcome <;> rfl
  refine wfStream_append_term _ ht _ ?_
  intro e he
  obtain ⟨t, rfl⟩ := generate_tokens_shape e he
  rfl

theorem not_evBot_term {bot : String} {x : StreamEvent}
    (h : evBot bot x = false) : isTermOf bot x = false := by
  cases hx : isTermOf bot x with
  | false => rfl
  | true => rw [isTermOf_evBot hx] at h; exact absurd h (by simp)

theorem not_evBot_token {bot : String} {x : StreamEvent}
    (h : evBot bot x = false) : isTokenOf bot x = false := by
  cases hx : isTokenOf bot x with
  | false => rfl
  | true => rw [isTokenOf_evBot hx] at h; exact absurd h (by simp)

/-- C2: in every combined stream the implementation can produce (any
persona set, any upstream chunk lists and outcomes), each persona has
at most one terminal (done or error) event, and no token event of that
persona occurs after its terminal event. -/
theorem C2_per_persona_terminal_invariant
    (gens : List (String × List (Option String) × Option String))
    (hnd : keysNodup (genState gens) = true)
    (bot : String) (l1 l2 : List StreamEvent) (e : StreamEvent)
    (hsplit : eventStream (genState gens) = l1 ++ e :: l2)
    (hterm : isTermOf bot e = true) :
    (∀ x ∈ l1, isTermOf bot x = false) ∧
    (∀ x ∈ l2, isTermOf bot x = false ∧ isTokenOf bot x = false) := by
  have hwf : ∀ q ∈ genState gens, wfStream q.2 = true := by
    intro q hq
    obtain ⟨g, hg, rfl⟩ := List.mem_map.mp hq
    exact wfStream_generate g.2.1 g.2.2
  have hfilter : (eventStream (genState gens)).filter (evBot bot)
      = (getStream bot (genState gens)).map (tagEvent bot) := by
    rw [eventStream, List.filter_append, runRounds_filter bot _ hnd hwf]
    simp [evBot]
  have hebot : evBot bot e = true := isTermOf_evBot hterm
  cases hany : (genState gens).any (fun p => p.1 == bot) with
  | false =>
    exfalso
    have hget : getStream bot (genState gens) = [] := notKey_getStream _ hany
    have hmem : e ∈ (eventStream (genState gens)).filter (evBot bot) :=
      List.mem_filter.mpr
        ⟨by rw [hsplit]; exact List.mem_append_right _ (List.mem_cons_self _ _), hebot⟩
    rw [hfilter, hget] at hmem
    simp at hmem
  | true =>
    obtain ⟨q, hq, hqb⟩ := List.any_eq_true.mp hany
    obtain ⟨g, hg, rfl⟩ := List.mem_map.mp hq
    have hqbot : g.1 = bot := by simpa [genSource] using hqb
    have hget : getStream bot (genState gens) = generate g.2.1 g.2.2 := by
      have hg2 := getStream_of_mem (genState gens) hnd (genSource g)
        (List.mem_map_of_mem _ hg)
      rw [← hqbot]
      exact hg2
    have hsplitF : (l1.filter (evBot bot)) ++ e :: (l2.filter (evBot bot))
        = ((g.2.1.filterMap fun c =>
              match c with
              | some t => if t = "" then none else some (RawEvent.token t)
              | none => none).map (tagEvent bot))
          ++ [tagEvent bot (match g.2.2 with
              | none => RawEvent.done
              | some m => RawEvent.error m)] := by
      have hfs : (eventStream (genState gens)).filter (evBot bot)
          = l1.filter (evBot bot) ++ e :: l2.filter (evBot bot) := by
        rw [hsplit, List.filter_append]
        simp [List.filter_cons, hebot]
      rw [← hfs, hfilter, hget, generate.eq_def, List.map_append]
      simp
    have hAterm : ∀ a ∈ ((g.2.1.filterMap fun c =>
        match c with
        | some t => if t = "" then none else some (RawEvent.token t)
        | none => none).map (tagEvent bot)), isTermOf bot a = false := by
      intro a ha
      obtain ⟨x, hx, rfl⟩ := List.mem_map.mp ha
      obtain ⟨t, rfl⟩ := generate_tokens_shape x hx
      rfl
    obtain ⟨hl1, _, hl2⟩ :=
      eq_append_last (isTermOf bot) _ _ _ _ _ hsplitF hAterm hterm
    have hl2nil : ∀ x ∈ l2, evBot bot x = false := by
      intro x hx
      cases hxb : evBot bot x with
      | false => rfl
      | true =>
        exfalso
        have : x ∈ l2.filter (evBot bot) := List.mem_filter.mpr ⟨hx, hxb⟩
        rw [hl2] at this
        simp at this
    constructor
    · intro x hx
      cases hxt : isTermOf bot x with
      | false => rfl
      | true =>
        exfalso
        have hxb : evBot bot x = true := isTermOf_evBot hxt
        have hmem : x ∈ l1.filter (evBot bot) := List.mem_filter.mpr ⟨hx, hxb⟩
        rw [hl1] at hmem
        obtain ⟨y, hy, rfl⟩ := List.mem_map.mp hmem
        obtain ⟨t, rfl⟩ := generate_tokens_shape y hy
        simp [tagEvent, isTermOf] at hxt
    · intro x hx
      exact ⟨not_evBot_term (hl2nil x hx), not_evBot_token (hl2nil x hx)⟩

/-- Witness for C2: two personas, one of which errors immediately; the
terminal of persona b splits the concrete combined stream and the
invariant holds on both sides. -/
theorem C2_witness :
    keysNodup (genState [("a", ([some "x"], none)), ("b", ([], some "boom"))]) = true ∧
    eventStream (genState [("a", ([some "x"], none)), ("b", ([], some "boom"))])
      = [StreamEvent.token "a" "x"]
          ++ StreamEvent.error "b" "boom" :: [StreamEvent.done "a", StreamEvent.allDone] ∧
    isTermOf "b" (StreamEvent.error "b" "boom") = true ∧
    ((∀ x ∈ [StreamEvent.token "a" "x"], isTermOf "b" x = false) ∧
     (∀ x ∈ [StreamEvent.done "a", StreamEvent.allDone],
        isTermOf "b" x = false ∧ isTokenOf "b" x = false)) :=
  ⟨by decide, by decide, by decide,
    C2_per_persona_terminal_invariant
      [("a", ([some "x"], none)), ("b", ([], some "boom"))] (by decide) "b"
      [StreamEvent.token "a" "x"] [StreamEvent.done "a", StreamEvent.allDone]
      (StreamEvent.error "b" "boom") (by decide) (by decide)⟩

/-- C3: if one persona's source emits Error instead of Done, the
combined stream contains exactly one Error event (and it belongs to
that persona), every other persona's events are still forwarded in
full, and the stream still ends with a single AllDone. -/
theorem C3_error_is_isolated
    (ps1 ps2 : List (String × List String)) (b0 : String) (ts0 : List String)
    (msg : String)
    (hnd : keysNodup (errState ps1 b0 ts0 msg ps2) = true) :
    (eventStream (errState ps1 b0 ts0 msg ps2)).countP isErrorEv = 1 ∧
    (eventStream (errState ps1 b0 ts0 msg ps2)).countP (isErrOf b0) = 1 ∧
    (∀ p ∈ ps1 ++ ps2,
      (eventStream (errState ps1 b0 ts0 msg ps2)).filter (evBot p.1)
        = p.2.map (fun t => StreamEvent.token p.1 t) ++ [StreamEvent.done p.1]) ∧
    (eventStream (errState ps1 b0 ts0 msg ps2)).getLast? = some StreamEvent.allDone ∧
    (eventStream (errState ps1 b0 ts0 msg ps2)).countP isAllDoneEv = 1 := by
  have hwf : ∀ q ∈ errState ps1 b0 ts0 msg ps2, wfStream q.2 = true := by
    intro q hq
    rw [errState] at hq
    rcases List.mem_append.mp hq with hq | hq
    · obtain ⟨p, _, rfl⟩ := List.mem_map.mp hq
      exact wfStream_tokens_term p.2 RawEvent.done rfl
    · rcases List.mem_cons.mp hq with hq | hq
      · subst hq
        exact wfStream_tokens_term ts0 (RawEvent.error msg) rfl
      · obtain ⟨p, _, rfl⟩ := List.mem_map.mp hq
        exact wfStream_tokens_term p.2 RawEvent.done rfl
  have hcount := fun f => runRounds_countP f (errState ps1 b0 ts0 msg ps2) hwf
  have hsum : ∀ f : StreamEvent → Bool,
      ((errState ps1 b0 ts0 msg ps2).map (emitCount f)).sum
        = (ps1.map (emitCount f ∘ srcDone)).sum
          + (emitCount f (b0, ts0.map RawEvent.token ++ [RawEvent.error msg])
              + (ps2.map (emitCount f ∘ srcDone)).sum) := by
    intro f
    rw [errState, List.map_append, List.sum_append, List.map_cons, List.sum_cons,
      srcState, srcState, List.map_map, List.map_map]
  have hdone0 : ∀ (f : StreamEvent → Bool),
      (∀ b t, f (StreamEvent.token b t) = false) → (∀ b, f (StreamEvent.done b) = false) →
      ∀ (ps : List (String × List String)), ((ps.map (emitCount f ∘ srcDone)).sum) = 0 := by
    intro f hft hfd ps
    have : ∀ p ∈ ps, (emitCount f ∘ srcDone) p = 0 := by
      intro p _
      simp [srcDone, List.countP_append, List.countP_map, Function.comp, tagEvent,
        List.countP_eq_zero, hft, hfd]
    simpa using sum_map_const_nat ps _ 0 this
  have herrmid : emitCount isErrorEv (b0, ts0.map RawEvent.token ++ [RawEvent.error msg]) = 1 := by
    simp [List.countP_append, List.countP_map, Function.comp, tagEvent, isErrorEv,
      List.countP_eq_zero]
  have herrmid0 : emitCount (isErrOf b0) (b0, ts0.map RawEvent.token ++ [RawEvent.error msg]) = 1 := by
    simp [List.countP_append, List.countP_map, Function.comp, tagEvent, isErrOf,
      List.countP_eq_zero]
  refine ⟨?_, ?_, ?_, ?_, ?_⟩
  · rw [eventStream, List.countP_append, hcount isErrorEv, hsum isErrorEv,
      hdone0 isErrorEv (by intro b t; rfl) (by intro b; rfl) ps1,
      hdone0 isErrorEv (by intro b t; rfl) (by intro b; rfl) ps2, herrmid]
    simp [isErrorEv]
  · rw [eventStream, List.countP_append, hcount (isErrOf b0), hsum (isErrOf b0),
      hdone0 (isErrOf b0) (by intro b t; rfl) (by intro b; rfl) ps1,
      hdone0 (isErrOf b0) (by intro b t; rfl) (by intro b; rfl) ps2, herrmid0]
    simp [isErrOf]
  · intro p hp
    have hmem : srcDone p ∈ errState ps1 b0 ts0 msg ps2 := by
      rw [errState]
      rcases List.mem_append.mp hp with hp | hp
      · exact List.mem_append_left _ (List.mem_map_of_mem srcDone hp)
      · exact List.mem_append_right _
          (List.mem_cons_of_mem _ (List.mem_map_of_mem srcDone hp))
    have hget : getStream p.1 (errState ps1 b0 ts0 msg ps2)
        = p.2.map RawEvent.token ++ [RawEvent.done] := by
      have := getStream_of_mem _ hnd (srcDone p) hmem
      simpa [srcDone] using this
    rw [eventStream, List.filter_append, runRounds_filter p.1 _ hnd hwf, hget]
    simp [evBot, tagEvent]
  · exact List.getLast?_concat _
  · rw [eventStream, List.countP_append, hcount isAllDoneEv, hsum isAllDoneEv,
      hdone0 isAllDoneEv (by intro b t; rfl) (by intro b; rfl) ps1,
      hdone0 isAllDoneEv (by intro b t; rfl) (by intro b; rfl) ps2]
    have : emitCount isAllDoneEv (b0, ts0.map RawEvent.token ++ [RawEvent.error msg]) = 0 := by
      simp [List.countP_append, List.countP_map, Function.comp, tagEvent, isAllDoneEv,
        List.countP_eq_zero]
    rw [this]
    simp [isAllDoneEv]

/-- Witness for C3: one normally-completing persona and one erroring
persona. -/
theorem C3_witness :
    keysNodup (errState [("a", ["x"])] "b" [] "boom" []) = true ∧
    ((eventStream (errState [("a", ["x"])] "b" [] "boom" [])).countP isErrorEv = 1 ∧
     (eventStream (errState [("a", ["x"])] "b" [] "boom" [])).countP (isErrOf "b") = 1 ∧
     (∀ p ∈ ([("a", ["x"])] ++ ([] : List (String × List String))),
       (eventStream (errState [("a", ["x"])] "b" [] "boom" [])).filter (evBot p.1)
         = p.2.map (fun t => StreamEvent.token p.1 t) ++ [StreamEvent.done p.1]) ∧
     (eventStream (errState [("a", ["x"])] "b" [] "boom" [])).getLast?
        = some StreamEvent.allDone ∧
     (eventStream (errState [("a", ["x"])] "b" [] "boom" [])).countP isAllDoneEv = 1) :=
  ⟨by decide, C3_error_is_isolated [("a", ["x"])] [] "b" [] "boom" (by decide)⟩

theorem exhausted_removed :
    ∀ s : MuxState, keysNodup s = true → ∀ b, (b, ([] : List RawEvent)) ∈ s →
      (round s).2.any (fun q => q.1 == b) = false := by
  intro s
  induction s with
  | nil => intro _ b hb; simp at hb
  | cons q rest ih =>
    intro h b hb
    obtain ⟨b', evts'⟩ := q
    simp only [keysNodup, Bool.and_eq_true, Bool.not_eq_true'] at h
    rcases List.mem_cons.mp hb with heq | hmem
    · rw [Prod.mk.injEq] at heq
      obtain ⟨rfl, h2⟩ := heq
      subst h2
      simpa [round, pollOne] using notKey_round_state rest h.1
    · clear hb
      have hbne : (b == b') = false := by
        have := List.any_eq_false.mp h.1
        simpa using this (b, []) hmem
      cases evts' with
      | nil => simpa [round, pollOne] using ih h.2 b hmem
      | cons e es =>
        cases hrem : removesBot b' e with
        | true => simpa [round, pollOne, hrem] using ih h.2 b hmem
        | false =>
          simp only [round, pollOne, hrem, if_false, Bool.false_eq_true,
            List.any_cons, ih h.2 b hmem, beq_symm_false hbne, Bool.or_false]

/-- C7: in every pass of the merge loop, every bot in the active set is
polled exactly once: the events the pass emits for that bot are exactly
its next pending event (so no still-active source is skipped and none
is polled twice in a pass), and a bot whose generator is exhausted is
removed from the active set by that same pass. -/
theorem C7_every_active_bot_polled_each_round
    (s : MuxState) (hnd : keysNodup s = true) (b : String) (evts : List RawEvent)
    (hp : (b, evts) ∈ s) :
    (round s).1.filter (evBot b) = (evts.take 1).map (tagEvent b) ∧
    (evts = [] → (round s).2.any (fun q => q.1 == b) = false) := by
  constructor
  · have := getStream_of_mem s hnd (b, evts) hp
    rw [round_filter b s hnd, this]
  · intro hnil
    subst hnil
    exact exhausted_removed s hnd b hp

/-- C5: whatever the upstream interaction was (any chunk sequence, a
clean end or an exception raised at any point — network failure,
non-success status, malformed framing and provider errors all surface
as exceptions of the try block), the event sequence `generate` yields
is a non-empty finite list that ends with exactly one terminal record:
done on a clean end, error (with the exception message) otherwise, and
every earlier event is a token.  The catch-all `except` is what makes
the error case a stream event rather than an escaping exception. -/
theorem C5_generate_stream_shape (chunks : List (Option String)) (outcome : Option String) :
    generate chunks outcome ≠ [] ∧
    (generate chunks outcome).countP isTermRaw = 1 ∧
    (generate chunks outcome).getLast? = some (match outcome with
        | none => RawEvent.done
        | some m => RawEvent.error m) ∧
    (∀ e ∈ (generate chunks outcome).dropLast, isTermRaw e = false) := by
  have htoks := @generate_tokens_shape chunks
  refine ⟨?_, ?_, ?_, ?_⟩
  · rw [generate.eq_def]
    simp
  · rw [generate.eq_def, List.countP_append]
    have h0 : (chunks.filterMap fun c =>
        match c with
        | some t => if t = "" then none else some (RawEvent.token t)
        | none => none).countP isTermRaw = 0 := by
      refine List.countP_eq_zero.mpr ?_
      intro e he
      obtain ⟨t, rfl⟩ := htoks e he
      simp [isTermRaw]
    rw [h0]
    cases outcome <;> rfl
  · rw [generate.eq_def]
    exact List.getLast?_concat _
  · rw [generate.eq_def, List.dropLast_concat]
    intro e he
    obtain ⟨t, rfl⟩ := htoks e he
    rfl

/-- Witness for C7 at a concrete two-bot state, one of them exhausted. -/
theorem C7_witness :
    keysNodup [("a", [RawEvent.token "x"]), ("b", ([] : List RawEvent))] = true ∧
    ("b", ([] : List RawEvent)) ∈ [("a", [RawEvent.token "x"]), ("b", ([] : List RawEvent))] ∧
    ((round [("a", [RawEvent.token "x"]), ("b", ([] : List RawEvent))]).1.filter (evBot "b")
        = (([] : List RawEvent).take 1).map (tagEvent "b") ∧
     (([] : List RawEvent) = [] →
       (round [("a", [RawEvent.token "x"]), ("b", ([] : List RawEvent))]).2.any
         (fun q => q.1 == "b") = false)) :=
  ⟨by decide, by decide,
    C7_every_active_bot_polled_each_round
      [("a", [RawEvent.token "x"]), ("b", [])] (by decide) "b" [] (by decide)⟩

/-- C6: synthesis with an empty answers map returns the InvalidInput
client-error response — best is the empty string, an error string, a
400 status — and performs zero upstream calls; every request with a
non-empty answers map passes the emptiness check: it is not answered
with the 400 response and the upstream call is made. -/
theorem C6_empty_answers_rejected
    (prompt : String) (upstream : String → String)
    (answers : List (String × String)) :
    (asklurk prompt [] upstream
      = { best := "", error := some "No responses to analyze", status := 400,
          upstreamCalls := 0, sentUserMessage := none }) ∧
    (answers ≠ [] →
      (asklurk prompt answers upstream).status = 200 ∧
      (asklurk prompt answers upstream).error = none ∧
      (asklurk prompt answers upstream).upstreamCalls = 1) := by
  constructor
  · rfl
  · intro h
    simp [asklurk, List.isEmpty_iff, h]

/-- Witness for C6 with a one-entry answers map. -/
theorem C6_witness :
    ([(("logic" : String), ("a" : String))] ≠ []) ∧
    (asklurk "p" [] (fun _ => "best")
      = { best := "", error := some "No responses to analyze", status := 400,
          upstreamCalls := 0, sentUserMessage := none }) ∧
    ((asklurk "p" [("logic", "a")] (fun _ => "best")).status = 200 ∧
     (asklurk "p" [("logic", "a")] (fun _ => "best")).error = none ∧
     (asklurk "p" [("logic", "a")] (fun _ => "best")).upstreamCalls = 1) :=
  ⟨by decide,
    (C6_empty_answers_rejected "p" (fun _ => "best") [("logic", "a")]).1,
    (C6_empty_answers_rejected "p" (fun _ => "best") [("logic", "a")]).2 (by decide)⟩

/-- C9: a non-empty answers map whose keys are all outside the
configured persona set passes the emptiness check (no InvalidInput),
every entry is silently dropped from the merged content — which is
then just the original-question header — and the upstream synthesis
call is still made, with no per-persona answer included in the sent
message. -/
theorem C9_unknown_keys_silently_dropped
    (prompt : String) (answers : List (String × String)) (upstream : String → String)
    (hne : answers ≠ [])
    (hunknown : ∀ p ∈ answers, isModelKey p.1 = false) :
    merged_content prompt answers = "Original question: " ++ prompt ++ "\n\n" ∧
    (asklurk prompt answers upstream).status = 200 ∧
    (asklurk prompt answers upstream).upstreamCalls = 1 ∧
    (asklurk prompt answers upstream).sentUserMessage
      = some ("Analyze these AI responses to '" ++ prompt ++ "':\n"
          ++ ("Original question: " ++ prompt ++ "\n\n")
          ++ "\nProvide the best synthesized answer.") := by
  have hmc : merged_content prompt answers = "Original question: " ++ prompt ++ "\n\n" := by
    rw [merged_content]
    have : (answers.filterMap fun kr =>
        if isModelKey kr.1 then
          some ("## " ++ modelName kr.1 ++ ":\n" ++ kr.2 ++ "\n\n")
        else none) = [] := by
      refine List.filterMap_eq_nil_iff.mpr ?_
      intro kr hkr
      simp [hunknown kr hkr]
    rw [this]
    exact String.append_empty _
  refine ⟨hmc, ?_, ?_, ?_⟩ <;>
    simp [asklurk, List.isEmpty_iff, hne, hmc]

/-- Witness for C9 with one unknown-key entry. -/
theorem C9_witness :
    ([(("zzz" : String), ("a" : String))] ≠ []) ∧
    (∀ p ∈ [(("zzz" : String), ("a" : String))], isModelKey p.1 = false) ∧
    (merged_content "q" [("zzz", "a")] = "Original question: " ++ "q" ++ "\n\n" ∧
     (asklurk "q" [("zzz", "a")] (fun _ => "best")).status = 200 ∧
     (asklurk "q" [("zzz", "a")] (fun _ => "best")).upstreamCalls = 1 ∧
     (asklurk "q" [("zzz", "a")] (fun _ => "best")).sentUserMessage
       = some ("Analyze these AI responses to '" ++ "q" ++ "':\n"
           ++ ("Original question: " ++ "q" ++ "\n\n")
           ++ "\nProvide the best synthesized answer.")) :=
  ⟨by decide, by decide,
    C9_unknown_keys_silently_dropped "q" [("zzz", "a")] (fun _ => "best")
      (by decide) (by decide)⟩

theorem isPrefixOfCh_self_append :
    ∀ xs ys : List Char, isPrefixOfCh xs (xs ++ ys) = true := by
  intro xs
  induction xs with
  | nil => intro ys; rfl
  | cons a as ih => intro ys; simp [isPrefixOfCh, ih]

theorem docBlock_eq_label_append (d : String × String × Bool) :
    docBlock d = docLabel d ++ (d.2.1 ++ "\n") := by
  obtain ⟨path, text, isPdf⟩ := d
  cases isPdf <;>
    simp [docBlock, docLabel, pdfBlock, txtBlock, String.append_assoc]

/-- C8: the user-facing message sent to each persona is the prompt
concatenated with the labeled rendering of the attached-document
blocks (joined by blank lines under the attached-files header), where
each block begins with a label naming its originating file; with no
attached documents the message is the prompt unchanged. -/
theorem C8_user_message_construction
    (user : String) (docs : List (String × String × Bool)) :
    (docs = [] → full_user_prompt user (docs.map docBlock) = user) ∧
    (docs ≠ [] → full_user_prompt user (docs.map docBlock)
        = user ++ "\n\nAttached files content:\n" ++ joinSep "\n\n" (docs.map docBlock)) ∧
    (∀ d ∈ docs, isPrefixOfCh (docLabel d).data (docBlock d).data = true) := by
  refine ⟨?_, ?_, ?_⟩
  · intro h
    subst h
    rfl
  · intro h
    have hne : (docs.map docBlock).isEmpty = false := by
      simp [List.isEmpty_iff, h]
    rw [full_user_prompt, hne]
    simp
  · intro d _
    rw [docBlock_eq_label_append d, String.data_append]
    exact isPrefixOfCh_self_append _ _

/-- Witness for C8 with one attached PDF document. -/
theorem C8_witness :
    ([(("f.pdf" : String), ("body" : String), true)] ≠ []) ∧
    (full_user_prompt "ask" ([(("f.pdf" : String), ("body" : String), true)].map docBlock)
      = "ask" ++ "\n\nAttached files content:\n"
          ++ joinSep "\n\n" ([(("f.pdf" : String), ("body" : String), true)].map docBlock)) ∧
    (∀ d ∈ [(("f.pdf" : String), ("body" : String), true)],
        isPrefixOfCh (docLabel d).data (docBlock d).data = true) :=
  ⟨by decide,
    (C8_user_message_construction "ask" [("f.pdf", "body", true)]).2.1 (by decide),
    (C8_user_message_construction "ask" [("f.pdf", "body", true)]).2.2⟩

/-- C10: an attached file URL whose referenced file does not exist,
whose lowercased name ends in neither .pdf nor .txt, or whose
extraction or decoding fails contributes no block to `file_contents`
and produces no caller-visible error, and the fan-out proceeds — down
to the user message sent to every persona — exactly as if that URL had
not been attached. -/
theorem C10_bad_files_silently_skipped
    (fs : String → Option (List Nat)) (pdfText utf8 : List Nat → Option String)
    (pre post : List String) (url : String)
    (hbad : fs (fullPathOf url) = none
      ∨ (endsWithStr (strLower (filePathOf url)) ".pdf" = false
          ∧ endsWithStr (strLower (filePathOf url)) ".txt" = false)
      ∨ (endsWithStr (strLower (filePathOf url)) ".pdf" = true
          ∧ ∀ c, fs (fullPathOf url) = some c → pdfText c = none)
      ∨ (endsWithStr (strLower (filePathOf url)) ".pdf" = false
          ∧ endsWithStr (strLower (filePathOf url)) ".txt" = true
          ∧ ∀ c, fs (fullPathOf url) = some c → utf8 c = none)) :
    processFile fs pdfText utf8 url = none ∧
    processFiles fs pdfText utf8 (pre ++ url :: post)
      = processFiles fs pdfText utf8 (pre ++ post) ∧
    ∀ user : String,
      full_user_prompt user (processFiles fs pdfText utf8 (pre ++ url :: post))
        = full_user_prompt user (processFiles fs pdfText utf8 (pre ++ post)) := by
  have hnone : processFile fs pdfText utf8 url = none := by
    rcases hbad with h | ⟨h1, h2⟩ | ⟨h1, h2⟩ | ⟨h1, h2, h3⟩
    · simp [processFile, h]
    · cases hc : fs (fullPathOf url) with
      | none => simp [processFile, hc]
      | some c => simp [processFile, hc, h1, h2]
    · cases hc : fs (fullPathOf url) with
      | none => simp [processFile, hc]
      | some c => simp [processFile, hc, h1, h2 c hc]
    · cases hc : fs (fullPathOf url) with
      | none => simp [processFile, hc]
      | some c => simp [processFile, hc, h1, h2, h3 c hc]
  have heq : processFiles fs pdfText utf8 (pre ++ url :: post)
      = processFiles fs pdfText utf8 (pre ++ post) := by
    simp [processFiles, List.filterMap_append, List.filterMap_cons, hnone]
  exact ⟨hnone, heq, fun user => by rw [heq]⟩

/-- Witness for C10 with a missing file. -/
theorem C10_witness :
    ((fun _ : String => (none : Option (List Nat))) (fullPathOf "u") = none) ∧
    (processFile (fun _ => none) (fun _ => none) (fun _ => none) "u" = none ∧
     processFiles (fun _ => none) (fun _ => none) (fun _ => none) ([] ++ "u" :: [])
       = processFiles (fun _ => none) (fun _ => none) (fun _ => none) ([] ++ []) ∧
     ∀ user : String,
       full_user_prompt user
           (processFiles (fun _ => none) (fun _ => none) (fun _ => none) ([] ++ "u" :: []))
         = full_user_prompt user
             (processFiles (fun _ => none) (fun _ => none) (fun _ => none) ([] ++ []))) :=
  ⟨rfl,
    C10_bad_files_silently_skipped (fun _ => none) (fun _ => none) (fun _ => none)
      [] [] "u" (Or.inl rfl)⟩

/-- C4 counterexample: with two personas that each emit one token and
then complete, the trace of `event_stream` yields the first persona's
first event before the second persona's upstream client is started —
the claim that all clients are started before the first event is
awaited is false of the implementation, whose generators are lazy and
whose merge loop blocks on one generator at a time. -/
theorem C4_counterexample :
    allStartsBeforeFirstYield
      (eventStreamT [("a", [RawEvent.token "x", RawEvent.done]),
                     ("b", [RawEvent.token "y", RawEvent.done])]) = false := by
  decide

/-- C4 amended: the fan-out creates one generator object per persona
before the merge loop begins, but each persona's upstream client is
started lazily at that persona's first poll; in particular, whenever
at least two personas are configured, the combined trace begins with
the first persona's client start, then its first yielded event, and
only then the second persona's client start — the clients are started
sequentially, interleaved with event consumption, not all before the
first event is awaited. -/
theorem C4_amended_lazy_sequential_starts
    (b1 : String) (e : RawEvent) (es : List RawEvent) (q : String × List RawEvent)
    (rest : List (String × List RawEvent)) :
    (eventStreamT ((b1, e :: es) :: q :: rest)).take 3
      = [TraceItem.start b1, TraceItem.yielded (tagEvent b1 e),
         TraceItem.start q.1] := by
  obtain ⟨b2, evts2⟩ := q
  have hfuel : muxMeasureT ((b1, (false, e :: es)) :: (b2, (false, evts2))
      :: rest.map (fun p => (p.1, (false, p.2))))
      = (es.length + 1 + (evts2.length + 1
          + muxMeasureT (rest.map fun p => (p.1, (false, p.2))))) + 1 := by
    simp only [muxMeasureT, List.length_cons]
    omega
  simp only [eventStreamT, List.map_cons]
  rw [hfuel]
  cases evts2 with
  | nil =>
    simp [runRoundsFuelT, roundT, pollOneT]
  | cons e2 es2 =>
    simp [runRoundsFuelT, roundT, pollOneT]

/-- Witness for the amended C4 at a concrete two-persona input. -/
theorem C4_witness :
    (eventStreamT [("a", [RawEvent.token "x", RawEvent.done]),
                   ("b", [RawEvent.token "y", RawEvent.done])]).take 3
      = [TraceItem.start "a", TraceItem.yielded (tagEvent "a" (RawEvent.token "x")),
         TraceItem.start "b"] :=
  C4_amended_lazy_sequential_starts "a" (RawEvent.token "x") [RawEvent.done]
    ("b", [RawEvent.token "y", RawEvent.done]) []

/-- Witness for C5 at a concrete chunk list (one real token, one
contentless chunk, one empty-content chunk) with an upstream error. -/
theorem C5_witness :
    generate [some "x", none, some ""] (some "boom") ≠ [] ∧
    (generate [some "x", none, some ""] (some "boom")).countP isTermRaw = 1 ∧
    (generate [some "x", none, some ""] (some "boom")).getLast?
      = some (RawEvent.error "boom") ∧
    (∀ e ∈ (generate [some "x", none, some ""] (some "boom")).dropLast,
      isTermRaw e = false) :=
  C5_generate_stream_shape [some "x", none, some ""] (some "boom")

end PentadChat
